import Mathlib

/-
  Verification development for the connection-management core of ury-listd
  (src/listener.go).  The dispatcher loop handleChannels, its helpers
  processResponse and processRequest, the per-connection loops Client.Read and
  Client.Write, and the accept loop runListener are embedded as pure Lean
  functions; the external baps3 codec (Tokenise, LineToMessage, Message.Pack)
  is kept abstract, as the repository treats it as an external collaborator.
-/

namespace Listd

/-- Shape of baps3.Message as used by listener.go: a response or request word
together with a list of string arguments.  The type is opaque to this core;
only construction via NewMessage and AddArg is used (makeWelcomeMsg,
makeFeaturesMsg). -/
structure Message where
  word : String
  args : List String
deriving DecidableEq

/-- Constant for the baps3.RsOhai message word. -/
def RsOhai : String := "OHAI"

/-- Constant for the baps3.RsFeatures message word. -/
def RsFeatures : String := "FEATURES"

/-- Embeds baps3.NewMessage: a message with the given word and no arguments. -/
def NewMessage (w : String) : Message :=
  { word := w, args := [] }

/-- Embeds Message.AddArg: appends one argument to the message. -/
def Message.AddArg (m : Message) (a : String) : Message :=
  { m with args := m.args ++ [a] }

/-- Embeds makeWelcomeMsg from listener.go:
NewMessage(baps3.RsOhai).AddArg("listd").AddArg("0.0"). -/
def makeWelcomeMsg : Message :=
  ((NewMessage RsOhai).AddArg "listd").AddArg "0.0"

/-- Embeds makeFeaturesMsg from listener.go:
NewMessage(baps3.RsFeatures).AddArg("lol"). -/
def makeFeaturesMsg : Message :=
  (NewMessage RsFeatures).AddArg "lol"

/-- State of one outbound channel (the resCh of one Client).  msgs records, in
order, every message successfully sent on the channel; closed records whether
close has been executed on it; closeAttempts counts how many times the close
statement in the rm case of handleChannels has been executed on this channel
(in Go the second such attempt panics). -/
structure Chan where
  msgs : List Message
  closed : Bool
  closeAttempts : Nat
deriving DecidableEq

/-- Pointwise update of a channel assignment. -/
def upd (f : Nat → Chan) (c : Nat) (v : Chan) : Nat → Chan :=
  fun x => if x = c then v else f x

/-- State owned by the handleChannels goroutine.  Sessions (and their resCh
channels) are identified by a natural number standing for the net.Conn handle.
table is the key set of the Go map clients (conn to resCh); chans gives the
state of every resCh; fwd records the messages forwarded to cReqCh by
processRequest; panicked records that a Go runtime panic has occurred in the
goroutine (send on a closed channel, or close of a closed channel), after
which the loop processes nothing further. -/
structure DState where
  table : List Nat
  chans : Nat → Chan
  fwd : List Message
  panicked : Bool

/-- Initial dispatcher state: clients := make(map[net.Conn]chan baps3.Message),
all channels unused. -/
def init : DState :=
  { table := []
    chans := fun _ => { msgs := [], closed := false, closeAttempts := 0 }
    fwd := []
    panicked := false }

/-- Embeds a Go channel send statement ch <- m for the resCh of session c.  A
send on a closed channel panics; after a panic nothing further executes. -/
def sendTo (s : DState) (c : Nat) (m : Message) : DState :=
  if s.panicked then s
  else if (s.chans c).closed then { s with panicked := true }
  else
    { s with
      chans := upd s.chans c
        { s.chans c with msgs := (s.chans c).msgs ++ [m] } }

/-- Embeds processResponse from listener.go: for _, ch := range *clients
\x7b ch <- res \x7d.  The iteration is over the table captured at entry; a Go
map iterates in unspecified order, here the model fixes the list order of
table (the properties proved below are order independent). -/
def processResponse (s : DState) (res : Message) : DState :=
  s.table.foldl (fun t c => sendTo t c res) s

/-- Embeds processRequest from listener.go: the request is forwarded verbatim
to the connector channel cReqCh. -/
def processRequest (s : DState) (m : Message) : DState :=
  { s with fwd := s.fwd ++ [m] }

/-- Embeds the addCh case of handleChannels: clients[client.conn] =
client.resCh, then the welcome message and the features message are sent on
the new resCh, inside this same event handling step. -/
def addStep (s : DState) (c : Nat) : DState :=
  let s1 := { s with table := if c ∈ s.table then s.table else s.table ++ [c] }
  sendTo (sendTo s1 c makeWelcomeMsg) c makeFeaturesMsg

/-- Embeds the rmCh case of handleChannels: close(client.resCh) followed by
delete(clients, client.conn).  Closing an already closed channel panics in Go,
so in that case the delete statement is never reached. -/
def rmStep (s : DState) (c : Nat) : DState :=
  if (s.chans c).closed then
    { s with
      chans := upd s.chans c
        { s.chans c with closeAttempts := (s.chans c).closeAttempts + 1 }
      panicked := true }
  else
    { s with
      chans := upd s.chans c
        { s.chans c with closed := true
                         closeAttempts := (s.chans c).closeAttempts + 1 }
      table := s.table.filter (fun x => x != c) }

/-- One event arriving at the select statement of handleChannels.  The src
field of req is ghost provenance (which session read loop produced the
request); the Go channel reqCh carries only the message and processRequest
never consults the source. -/
inductive Event where
  | res (m : Message)
  | req (src : Nat) (m : Message)
  | add (c : Nat)
  | rm (c : Nat)
deriving DecidableEq

/-- Embeds one iteration of the select loop in handleChannels.  After a Go
panic the goroutine is dead, hence the guard. -/
def step (s : DState) (e : Event) : DState :=
  if s.panicked then s
  else
    match e with
    | Event.res m => processResponse s m
    | Event.req _ m => processRequest s m
    | Event.add c => addStep s c
    | Event.rm c => rmStep s c

/-- Runs the handleChannels loop over a finite schedule of events. -/
def run (s : DState) (es : List Event) : DState :=
  es.foldl step s

/-! Basic lemmas about sendTo and the broadcast fold. -/

lemma run_append (s : DState) (as bs : List Event) :
    run s (as ++ bs) = run (run s as) bs :=
  List.foldl_append ..

lemma run_cons (s : DState) (e : Event) (es : List Event) :
    run s (e :: es) = run (step s e) es := rfl

lemma sendTo_table (s : DState) (d : Nat) (M : Message) :
    (sendTo s d M).table = s.table := by
  unfold sendTo; split_ifs <;> rfl

lemma sendTo_fwd (s : DState) (d : Nat) (M : Message) :
    (sendTo s d M).fwd = s.fwd := by
  unfold sendTo; split_ifs <;> rfl

lemma sendTo_chans_ne (s : DState) (d : Nat) (M : Message) (c : Nat) (h : c ≠ d) :
    (sendTo s d M).chans c = s.chans c := by
  unfold sendTo upd; split_ifs <;> simp [h]

lemma sendTo_closed_pres (s : DState) (d : Nat) (M : Message) (c : Nat) :
    ((sendTo s d M).chans c).closed = (s.chans c).closed := by
  unfold sendTo upd
  split_ifs <;> by_cases hc : c = d <;> simp [hc]

lemma sendTo_closeAttempts_pres (s : DState) (d : Nat) (M : Message) (c : Nat) :
    ((sendTo s d M).chans c).closeAttempts = (s.chans c).closeAttempts := by
  unfold sendTo upd
  split_ifs <;> by_cases hc : c = d <;> simp [hc]

lemma sendTo_panicked (s : DState) (d : Nat) (M : Message)
    (hp : s.panicked = false) (hcl : (s.chans d).closed = false) :
    (sendTo s d M).panicked = false := by
  unfold sendTo; simp [hp, hcl]

lemma sendTo_chans_self (s : DState) (d : Nat) (M : Message)
    (hp : s.panicked = false) (hcl : (s.chans d).closed = false) :
    (sendTo s d M).chans d = { s.chans d with msgs := (s.chans d).msgs ++ [M] } := by
  unfold sendTo upd; simp [hp, hcl]

lemma foldl_sendTo_table (ds : List Nat) (s : DState) (M : Message) :
    (ds.foldl (fun t d => sendTo t d M) s).table = s.table := by
  induction ds generalizing s with
  | nil => rfl
  | cons d ds ih => simp only [List.foldl_cons, ih, sendTo_table]

lemma foldl_sendTo_fwd (ds : List Nat) (s : DState) (M : Message) :
    (ds.foldl (fun t d => sendTo t d M) s).fwd = s.fwd := by
  induction ds generalizing s with
  | nil => rfl
  | cons d ds ih => simp only [List.foldl_cons, ih, sendTo_fwd]

lemma foldl_sendTo_chans_not_mem (ds : List Nat) (s : DState) (M : Message)
    (c : Nat) (h : c ∉ ds) :
    (ds.foldl (fun t d => sendTo t d M) s).chans c = s.chans c := by
  induction ds generalizing s with
  | nil => rfl
  | cons d ds ih =>
    simp only [List.mem_cons, not_or] at h
    simp only [List.foldl_cons, ih _ h.2, sendTo_chans_ne _ _ _ _ h.1]

lemma foldl_sendTo_closed_pres (ds : List Nat) (s : DState) (M : Message) (c : Nat) :
    ((ds.foldl (fun t d => sendTo t d M) s).chans c).closed = (s.chans c).closed := by
  induction ds generalizing s with
  | nil => rfl
  | cons d ds ih => simp only [List.foldl_cons, ih, sendTo_closed_pres]

lemma foldl_sendTo_panicked (ds : List Nat) (s : DState) (M : Message)
    (hp : s.panicked = false) (hopen : ∀ d ∈ ds, (s.chans d).closed = false) :
    (ds.foldl (fun t d => sendTo t d M) s).panicked = false := by
  induction ds generalizing s with
  | nil => exact hp
  | cons d ds ih =>
    simp only [List.foldl_cons]
    refine ih _ (sendTo_panicked _ _ _ hp (hopen d (List.mem_cons_self d ds))) ?_
    intro d' hd'
    rw [sendTo_closed_pres]
    exact hopen d' (List.mem_cons_of_mem _ hd')

lemma foldl_sendTo_chans_mem (ds : List Nat) (s : DState) (M : Message)
    (hnd : ds.Nodup) (hp : s.panicked = false)
    (hopen : ∀ d ∈ ds, (s.chans d).closed = false) :
    ∀ c ∈ ds, (ds.foldl (fun t d => sendTo t d M) s).chans c
      = { s.chans c with msgs := (s.chans c).msgs ++ [M] } := by
  induction ds generalizing s with
  | nil => intro c hc; cases hc
  | cons d ds ih =>
    intro c hc
    have hdnotin : d ∉ ds := (List.nodup_cons.mp hnd).1
    have hd0 : (s.chans d).closed = false := hopen d (List.mem_cons_self d ds)
    have hp1 : (sendTo s d M).panicked = false := sendTo_panicked _ _ _ hp hd0
    rcases List.mem_cons.mp hc with rfl | hc2
    · simp only [List.foldl_cons]
      rw [foldl_sendTo_chans_not_mem _ _ _ _ hdnotin, sendTo_chans_self _ _ _ hp hd0]
    · have hcd : c ≠ d := fun h => hdnotin (h ▸ hc2)
      simp only [List.foldl_cons]
      rw [ih (sendTo s d M) (List.nodup_cons.mp hnd).2 hp1
        (fun d' hd' => by
          rw [sendTo_closed_pres]
          exact hopen d' (List.mem_cons_of_mem _ hd')) c hc2]
      rw [sendTo_chans_ne _ _ _ _ hcd]

/-! Lemmas about the add handler. -/

lemma addStep_spec (s : DState) (c : Nat)
    (hp : s.panicked = false) (hcl : (s.chans c).closed = false) :
    (addStep s c).panicked = false ∧
    (addStep s c).table = (if c ∈ s.table then s.table else s.table ++ [c]) ∧
    (addStep s c).chans c
      = { s.chans c with msgs := (s.chans c).msgs ++ [makeWelcomeMsg, makeFeaturesMsg] } ∧
    (∀ d, d ≠ c → (addStep s c).chans d = s.chans d) ∧
    (addStep s c).fwd = s.fwd := by
  unfold addStep
  set s1 : DState := { s with table := if c ∈ s.table then s.table else s.table ++ [c] }
    with hs1
  have h1p : s1.panicked = false := hp
  have h1c : s1.chans = s.chans := rfl
  have h1cl : (s1.chans c).closed = false := hcl
  have h2 := sendTo_chans_self s1 c makeWelcomeMsg h1p h1cl
  have h2p : (sendTo s1 c makeWelcomeMsg).panicked = false := sendTo_panicked _ _ _ h1p h1cl
  have h2cl : ((sendTo s1 c makeWelcomeMsg).chans c).closed = false := by
    rw [sendTo_closed_pres]; exact h1cl
  have h3 := sendTo_chans_self (sendTo s1 c makeWelcomeMsg) c makeFeaturesMsg h2p h2cl
  refine ⟨sendTo_panicked _ _ _ h2p h2cl, ?_, ?_, ?_, ?_⟩
  · rw [sendTo_table, sendTo_table]
  · rw [h3, h2]
    simp [h1c, List.append_assoc]
  · intro d hd
    rw [sendTo_chans_ne _ _ _ _ hd, sendTo_chans_ne _ _ _ _ hd, h1c]
  · rw [sendTo_fwd, sendTo_fwd]

/-- Running the dispatcher over a block of registrations of pairwise distinct,
fresh sessions: each new session ends with exactly the welcome and features
messages on its open channel, the table gains exactly those sessions, and no
other channel is touched. -/
lemma run_adds (cs : List Nat) (s : DState) (hnd : cs.Nodup) (hp : s.panicked = false)
    (hf : ∀ c ∈ cs, c ∉ s.table ∧
      s.chans c = { msgs := [], closed := false, closeAttempts := 0 }) :
    (run s (cs.map Event.add)).panicked = false ∧
    (run s (cs.map Event.add)).table = s.table ++ cs ∧
    (∀ c ∈ cs, (run s (cs.map Event.add)).chans c
      = { msgs := [makeWelcomeMsg, makeFeaturesMsg], closed := false, closeAttempts := 0 }) ∧
    (∀ c, c ∉ cs → (run s (cs.map Event.add)).chans c = s.chans c) ∧
    (run s (cs.map Event.add)).fwd = s.fwd := by
  induction cs generalizing s with
  | nil =>
    refine ⟨hp, by simp [run], ?_, fun c _ => rfl, rfl⟩
    intro c hc; cases hc
  | cons c cs ih =>
    have hcnotin : c ∉ cs := (List.nodup_cons.mp hnd).1
    obtain ⟨hct, hcc⟩ := hf c (List.mem_cons_self c cs)
    have hcl : (s.chans c).closed = false := by rw [hcc]
    have hstep : step s (Event.add c) = addStep s c := by simp [step, hp]
    obtain ⟨a1, a2, a3, a4, a5⟩ := addStep_spec s c hp hcl
    have a2' : (addStep s c).table = s.table ++ [c] := by
      rw [a2, if_neg hct]
    have hfresh1 : ∀ c' ∈ cs, c' ∉ (addStep s c).table ∧
        (addStep s c).chans c'
          = { msgs := [], closed := false, closeAttempts := 0 } := by
      intro c' hc'
      have hne : c' ≠ c := fun h => hcnotin (h ▸ hc')
      obtain ⟨h1, h2⟩ := hf c' (List.mem_cons_of_mem _ hc')
      refine ⟨?_, by rw [a4 c' hne, h2]⟩
      rw [a2']
      simp only [List.mem_append, List.mem_singleton]
      rintro (h | h)
      · exact h1 h
      · exact hne h
    obtain ⟨i1, i2, i3, i4, i5⟩ := ih (addStep s c) (List.nodup_cons.mp hnd).2 a1 hfresh1
    rw [List.map_cons, run_cons, hstep]
    refine ⟨i1, ?_, ?_, ?_, by rw [i5, a5]⟩
    · rw [i2, a2', List.append_assoc]
      rfl
    · intro c' hc'
      rcases List.mem_cons.mp hc' with rfl | hc2
      · rw [i4 c' hcnotin, a3, hcc]
        rfl
      · exact i3 c' hc2
    · intro c' hc'
      simp only [List.mem_cons, not_or] at hc'
      rw [i4 c' hc'.2, a4 c' hc'.1]

/-- C1: after any number N of registrations of distinct fresh sessions followed
by one broadcast and no deregistration, every one of the N channels holds
exactly the welcome message, the features message and then exactly one copy of
the broadcast message: the broadcast step delivered M once to each registered
session, with no duplication and no loss. -/
theorem broadcast_delivers_exactly_once (cs : List Nat) (M : Message)
    (hnd : cs.Nodup) :
    ∀ c ∈ cs, ((run init (cs.map Event.add ++ [Event.res M])).chans c).msgs
      = [makeWelcomeMsg, makeFeaturesMsg, M] := by
  intro c hc
  rw [run_append]
  obtain ⟨r1, r2, r3, _, _⟩ := run_adds cs init hnd rfl
    (fun c _ => ⟨List.not_mem_nil c, rfl⟩)
  set s1 := run init (cs.map Event.add) with hs1
  have htable : s1.table = cs := by rw [r2]; exact List.nil_append cs
  have hstep : run s1 [Event.res M] = processResponse s1 M := by
    simp [run, step, r1]
  rw [hstep]
  unfold processResponse
  rw [htable]
  have hopen : ∀ d ∈ cs, (s1.chans d).closed = false := by
    intro d hd; rw [r3 d hd]
  rw [foldl_sendTo_chans_mem cs s1 M hnd r1 hopen c hc, r3 c hc]
  rfl

/-- Witness for C1 at three concrete sessions and a concrete message. -/
theorem broadcast_delivers_exactly_once_witness :
    ([0, 1, 2] : List Nat).Nodup ∧
    ∀ c ∈ ([0, 1, 2] : List Nat),
      ((run init (([0, 1, 2] : List Nat).map Event.add
          ++ [Event.res (NewMessage "RES")])).chans c).msgs
        = [makeWelcomeMsg, makeFeaturesMsg, NewMessage "RES"] :=
  ⟨by decide, broadcast_delivers_exactly_once [0, 1, 2] (NewMessage "RES") (by decide)⟩

/-! Lemmas tracking a single channel across arbitrary schedules. -/

lemma step_untouched (s : DState) (e : Event) (c : Nat)
    (h1 : c ∉ s.table) (h2 : e ≠ Event.add c) (h3 : e ≠ Event.rm c) :
    (step s e).chans c = s.chans c ∧ c ∉ (step s e).table := by
  by_cases hp : s.panicked
  · simp [step, hp, h1]
  · cases e with
    | res m =>
      simp only [step, hp, Bool.false_eq_true, if_false]
      refine ⟨foldl_sendTo_chans_not_mem _ _ _ _ h1, ?_⟩
      unfold processResponse
      rw [foldl_sendTo_table]
      exact h1
    | req src m =>
      simp only [step, hp, Bool.false_eq_true, if_false]
      exact ⟨rfl, h1⟩
    | add c' =>
      simp only [step, hp, Bool.false_eq_true, if_false]
      have hne : c ≠ c' := fun h => h2 (by rw [h])
      refine ⟨?_, ?_⟩
      · unfold addStep
        rw [sendTo_chans_ne _ _ _ _ hne, sendTo_chans_ne _ _ _ _ hne]
      · unfold addStep
        rw [sendTo_table, sendTo_table]
        split_ifs with hmem
        · exact h1
        · simp only [List.mem_append, List.mem_singleton, not_or]
          exact ⟨h1, hne⟩
    | rm c' =>
      simp only [step, hp, Bool.false_eq_true, if_false]
      have hne : c ≠ c' := fun h => h3 (by rw [h])
      unfold rmStep
      split_ifs with hcl
      · exact ⟨by simp [upd, hne], h1⟩
      · refine ⟨by simp [upd, hne], fun hmem => h1 (List.mem_of_mem_filter hmem)⟩

lemma run_untouched (es : List Event) (s : DState) (c : Nat)
    (h1 : c ∉ s.table) (h2 : Event.add c ∉ es) (h3 : Event.rm c ∉ es) :
    (run s es).chans c = s.chans c ∧ c ∉ (run s es).table := by
  induction es generalizing s with
  | nil => exact ⟨rfl, h1⟩
  | cons e es ih =>
    simp only [List.mem_cons, not_or] at h2 h3
    obtain ⟨hc, ht⟩ := step_untouched s e c h1 (fun h => h2.1 h.symm) (fun h => h3.1 h.symm)
    obtain ⟨hc2, ht2⟩ := ih (step s e) ht h2.2 h3.2
    exact ⟨by rw [run_cons, hc2, hc], by rw [run_cons]; exact ht2⟩

lemma sendTo_msgs_extend (s : DState) (d : Nat) (M : Message) (c : Nat) :
    ∃ t, ((sendTo s d M).chans c).msgs = (s.chans c).msgs ++ t := by
  unfold sendTo upd
  split_ifs with hp hcl
  · exact ⟨[], by simp⟩
  · exact ⟨[], by simp⟩
  · by_cases hc : c = d
    · subst hc; exact ⟨[M], by simp⟩
    · exact ⟨[], by simp [hc]⟩

lemma foldl_sendTo_msgs_extend (ds : List Nat) (s : DState) (M : Message) (c : Nat) :
    ∃ t, ((ds.foldl (fun t d => sendTo t d M) s).chans c).msgs
      = (s.chans c).msgs ++ t := by
  induction ds generalizing s with
  | nil => exact ⟨[], by simp⟩
  | cons d ds ih =>
    obtain ⟨t1, h1⟩ := sendTo_msgs_extend s d M c
    obtain ⟨t2, h2⟩ := ih (sendTo s d M)
    exact ⟨t1 ++ t2, by rw [List.foldl_cons, h2, h1, List.append_assoc]⟩

lemma rmStep_msgs (s : DState) (c' c : Nat) :
    ((rmStep s c').chans c).msgs = (s.chans c).msgs := by
  unfold rmStep upd
  split_ifs <;> by_cases hc : c = c' <;> simp [hc]

lemma step_msgs_extend (s : DState) (e : Event) (c : Nat) :
    ∃ t, ((step s e).chans c).msgs = (s.chans c).msgs ++ t := by
  by_cases hp : s.panicked
  · exact ⟨[], by simp [step, hp]⟩
  · cases e with
    | res m =>
      simp only [step, hp, Bool.false_eq_true, if_false]
      exact foldl_sendTo_msgs_extend _ _ _ _
    | req src m =>
      simp only [step, hp, Bool.false_eq_true, if_false]
      exact ⟨[], by simp [processRequest]⟩
    | add c' =>
      simp only [step, hp, Bool.false_eq_true, if_false]
      unfold addStep
      obtain ⟨t1, h1⟩ := sendTo_msgs_extend
        { s with table := if c' ∈ s.table then s.table else s.table ++ [c'] } c' makeWelcomeMsg c
      obtain ⟨t2, h2⟩ := sendTo_msgs_extend
        (sendTo { s with table := if c' ∈ s.table then s.table else s.table ++ [c'] }
          c' makeWelcomeMsg) c' makeFeaturesMsg c
      exact ⟨t1 ++ t2, by rw [h2, h1, List.append_assoc]⟩
    | rm c' =>
      simp only [step, hp, Bool.false_eq_true, if_false]
      exact ⟨[], by rw [rmStep_msgs]; simp⟩

lemma run_msgs_extend (es : List Event) (s : DState) (c : Nat) :
    ∃ t, ((run s es).chans c).msgs = (s.chans c).msgs ++ t := by
  induction es generalizing s with
  | nil => exact ⟨[], by simp [run]⟩
  | cons e es ih =>
    obtain ⟨t1, h1⟩ := step_msgs_extend s e c
    obtain ⟨t2, h2⟩ := ih (step s e)
    exact ⟨t1 ++ t2, by rw [run_cons, h2, h1, List.append_assoc]⟩

/-- C3: for a fresh session c registered after an arbitrary panic free schedule
pre and followed by an arbitrary schedule post, the first two messages on the
channel of c are the welcome message and the features message, in that order:
the add case of handleChannels pushes both inside the same event handling
step, before any other event is processed, so no broadcast can precede them on
that channel. -/
theorem welcome_then_features_first (pre post : List Event) (c : Nat)
    (hadd : Event.add c ∉ pre) (hrm : Event.rm c ∉ pre)
    (hp : (run init pre).panicked = false) :
    (((run init (pre ++ Event.add c :: post)).chans c).msgs).take 2
      = [makeWelcomeMsg, makeFeaturesMsg] := by
  rw [run_append]
  set s1 := run init pre with hs1
  obtain ⟨hch, _⟩ := run_untouched pre init c (List.not_mem_nil c) hadd hrm
  rw [← hs1] at hch
  have hcl : (s1.chans c).closed = false := by rw [hch]; rfl
  have hstep : step s1 (Event.add c) = addStep s1 c := by simp [step, hp]
  obtain ⟨_, _, a3, _, _⟩ := addStep_spec s1 c hp hcl
  have hmsgs : ((addStep s1 c).chans c).msgs = [makeWelcomeMsg, makeFeaturesMsg] := by
    rw [a3]
    simp only [hch]
    rfl
  obtain ⟨t, hext⟩ := run_msgs_extend post (addStep s1 c) c
  rw [run_cons, hstep, hext, hmsgs]
  rfl

/-- Witness for C3 with an empty preceding and following schedule. -/
theorem welcome_then_features_first_witness :
    Event.add 0 ∉ ([] : List Event) ∧ Event.rm 0 ∉ ([] : List Event) ∧
    (run init []).panicked = false ∧
    (((run init ([] ++ Event.add 0 :: [])).chans 0).msgs).take 2
      = [makeWelcomeMsg, makeFeaturesMsg] :=
  ⟨by decide, by decide, rfl,
    welcome_then_features_first [] [] 0 (by decide) (by decide) rfl⟩

/-- C2: the claim that a session channel is closed at most once fails on the
code.  Both the read loop (on a read error) and the write loop (on a write
error) send the same client on rmCh; the rm case of handleChannels executes
close(client.resCh) unconditionally, so the schedule add 0, rm 0, rm 0 makes
the dispatcher attempt a second close of the already closed channel, which
panics the goroutine in Go. -/
theorem rm_twice_attempts_second_close :
    ((run init [Event.add 0, Event.rm 0, Event.rm 0]).chans 0).closeAttempts = 2 ∧
    (run init [Event.add 0, Event.rm 0, Event.rm 0]).panicked = true := by decide

/-- C5: the claim that no error path terminates or crashes the dispatcher
fails on the code: processing a second remove event for the same session
panics the handleChannels goroutine (close of a closed channel), after which
the loop is dead. -/
theorem dispatcher_panics_on_double_remove :
    (run init [Event.add 0, Event.rm 0, Event.rm 0]).panicked = true := by decide

/-! Embedding of the per-connection read loop (Client.Read). -/

/-- One result of reader.ReadBytes in the Client.Read loop: either a read
error, or one line of raw bytes ending in the newline delimiter. -/
inductive ReadResult (B : Type) where
  | err
  | line (b : B)

/-- Embeds Client.Read from listener.go, parametric in the external baps3
codec.  tokenise stands for c.tok.Tokenise: from the tokeniser state and the
bytes read it returns the updated tokeniser state, the complete frames
recognised, and an error flag (the middle value returned by the Go method is
discarded by the code, and is omitted here).  lineToMessage stands for
baps3.LineToMessage, with none for a parse error.  The result is the list of
messages sent on reqCh, in order, together with a flag recording whether the
loop sent the client on rmCh and returned (which happens exactly on a read
error).  The input list is the finite schedule of read results consumed; when
it is exhausted the loop is still blocked on the socket and no rm was sent. -/
def clientRead {S B F : Type} (tokenise : S → B → S × List F × Bool)
    (lineToMessage : F → Option Message) :
    S → List (ReadResult B) → List Message × Bool
  | _, [] => ([], false)
  | _, ReadResult.err :: _ => ([], true)
  | t, ReadResult.line b :: rest =>
    let r := tokenise t b
    if r.2.2 then clientRead tokenise lineToMessage r.1 rest
    else
      let out := clientRead tokenise lineToMessage r.1 rest
      (r.2.1.filterMap lineToMessage ++ out.1, out.2)

/-- C6: feeding the read loop a decode invalid unit and then a valid complete
message forwards exactly one message to reqCh: the erroring Tokenise call is
logged and dropped, the loop continues with the updated tokeniser state, the
valid frame is parsed and forwarded, and the connection is not terminated (no
rm is signalled). -/
theorem invalid_then_valid_forwards_exactly_one
    {S B F : Type} (tokenise : S → B → S × List F × Bool)
    (lineToMessage : F → Option Message)
    (t0 t1 t2 : S) (b1 b2 : B) (junk : List F) (f : F) (m : Message)
    (h1 : tokenise t0 b1 = (t1, junk, true))
    (h2 : tokenise t1 b2 = (t2, [f], false))
    (h3 : lineToMessage f = some m) :
    clientRead tokenise lineToMessage t0
      [ReadResult.line b1, ReadResult.line b2] = ([m], false) := by
  simp [clientRead, h1, h2, h3]

/-- Concrete toy codec used to witness the read loop theorems: byte 1
tokenises with an error (and a stray frame 99 alongside it), any other byte
tokenises cleanly to frame 7, and only frame 7 parses. -/
def wTokenise : Nat → Nat → Nat × List Nat × Bool :=
  fun t b => if b = 1 then (t + 1, [99], true) else (t + 1, [7], false)

/-- Toy parser for the read loop witnesses: frame 7 parses, others do not. -/
def wParse : Nat → Option Message :=
  fun f => if f = 7 then some (NewMessage "REQ") else none

/-- Witness for C6 on the concrete toy codec. -/
theorem invalid_then_valid_forwards_exactly_one_witness :
    wTokenise 0 1 = (1, [99], true) ∧
    wTokenise 1 2 = (2, [7], false) ∧
    wParse 7 = some (NewMessage "REQ") ∧
    clientRead wTokenise wParse 0 [ReadResult.line 1, ReadResult.line 2]
      = ([NewMessage "REQ"], false) :=
  ⟨rfl, rfl, rfl,
    invalid_then_valid_forwards_exactly_one wTokenise wParse 0 1 2 1 2 [99] 7
      (NewMessage "REQ") rfl rfl rfl⟩

/-- C10: when Tokenise returns an error, the read loop discards every frame
produced by that call — the code drops the whole lines slice, complete valid
frames included — and continues with the next read using the updated tokeniser
state; whereas a parse error from LineToMessage inside a successful Tokenise
call drops only that one frame and the surrounding frames are still
forwarded. -/
theorem tokenise_error_discards_whole_call
    {S B F : Type} (tokenise : S → B → S × List F × Bool)
    (lineToMessage : F → Option Message)
    (t0 t1 t2 : S) (b1 b2 : B) (fs : List F) (f1 f2 f3 : F) (m1 m3 : Message)
    (h1 : tokenise t0 b1 = (t1, fs, true)) :
    (∀ rest, clientRead tokenise lineToMessage t0 (ReadResult.line b1 :: rest)
        = clientRead tokenise lineToMessage t1 rest) ∧
    (tokenise t1 b2 = (t2, [f1, f2, f3], false) →
      lineToMessage f1 = some m1 → lineToMessage f2 = none →
      lineToMessage f3 = some m3 →
      clientRead tokenise lineToMessage t0
        [ReadResult.line b1, ReadResult.line b2] = ([m1, m3], false)) := by
  constructor
  · intro rest
    simp [clientRead, h1]
  · intro h2 hp1 hp2 hp3
    simp [clientRead, h1, h2, hp1, hp2, hp3]

/-- Concrete toy codec for the C10 witness: byte 1 tokenises with an error
alongside frames 5 and 7 (7 being perfectly parsable, yet discarded), any
other byte tokenises cleanly to frames 7, 8, 9; frame 8 fails to parse. -/
def wTokenise3 : Nat → Nat → Nat × List Nat × Bool :=
  fun t b => if b = 1 then (t + 1, [5, 7], true) else (t + 1, [7, 8, 9], false)

/-- Toy parser for the C10 witness: frame 8 fails, others parse. -/
def wParse3 : Nat → Option Message :=
  fun f => if f = 8 then none else some (NewMessage "REQ")

/-- Witness for C10 on the concrete toy codec. -/
theorem tokenise_error_discards_whole_call_witness :
    wTokenise3 0 1 = (1, [5, 7], true) ∧
    clientRead wTokenise3 wParse3 0 [ReadResult.line 1, ReadResult.line 2]
      = ([NewMessage "REQ", NewMessage "REQ"], false) :=
  ⟨rfl,
    (tokenise_error_discards_whole_call wTokenise3 wParse3 0 1 2 1 2 [5, 7] 7 8 9
      (NewMessage "REQ") (NewMessage "REQ") rfl).2 rfl rfl rfl rfl⟩

/-! Embedding of the per-connection write loop (Client.Write). -/

/-- Embeds Client.Write from listener.go, parametric in the external codec and
in the socket.  pack stands for msg.Pack, with none for an encode error.
connWrite stands for c.conn.Write applied to the current socket state,
returning the new socket state and whether the write succeeded.  The input
list is the sequence of messages received from resCh before the channel is
closed; the more flag of the Go receive is false exactly when the list is
exhausted.  Returned are the final socket state, the byte units successfully
written in order, and whether the loop sent the client on rmCh before
returning. -/
def clientWrite {W B : Type} (pack : Message → Option B)
    (connWrite : W → B → W × Bool) :
    W → List Message → W × List B × Bool
  | w, [] => (w, [], false)
  | w, m :: rest =>
    match pack m with
    | none => clientWrite pack connWrite w rest
    | some d =>
      let r := connWrite w d
      if r.2 then
        let out := clientWrite pack connWrite r.1 rest
        (out.1, d :: out.2.1, out.2.2)
      else (r.1, [], true)

/-- C7: the write loop terminates cleanly and does not signal removal when its
channel is closed; an encode failure of one message is logged and skipped and
the loop continues with the subsequent messages; a socket write failure makes
the loop signal removal and terminate. -/
theorem write_loop_error_handling {W B : Type} (pack : Message → Option B)
    (connWrite : W → B → W × Bool) (w w2 : W) (m : Message)
    (rest : List Message) (d : B) :
    clientWrite pack connWrite w [] = (w, [], false) ∧
    (pack m = none →
      clientWrite pack connWrite w (m :: rest)
        = clientWrite pack connWrite w rest) ∧
    (pack m = some d → connWrite w d = (w2, false) →
      clientWrite pack connWrite w (m :: rest) = (w2, [], true)) := by
  refine ⟨rfl, ?_, ?_⟩
  · intro h
    simp [clientWrite, h]
  · intro h1 h2
    simp [clientWrite, h1, h2]

/-- Toy encoder for the C7 witness: the message word BAD fails to encode,
everything else encodes to one byte. -/
def wPack : Message → Option (List Nat) :=
  fun m => if m.word = "BAD" then none else some [1]

/-- Toy socket for the C7 witness: a write succeeds only in socket state 0 and
bumps the state. -/
def wConnWrite : Nat → List Nat → Nat × Bool :=
  fun w _ => (w + 1, w == 0)

/-- Witness for C7 on the concrete toy encoder and socket. -/
theorem write_loop_error_handling_witness :
    wPack (NewMessage "BAD") = none ∧
    wPack (NewMessage "OK") = some [1] ∧
    wConnWrite 5 [1] = (6, false) ∧
    clientWrite wPack wConnWrite 5 [] = (5, [], false) ∧
    clientWrite wPack wConnWrite 5 [NewMessage "BAD"]
      = clientWrite wPack wConnWrite 5 [] ∧
    clientWrite wPack wConnWrite 5 [NewMessage "OK"] = (6, [], true) :=
  ⟨rfl, rfl, rfl,
    (write_loop_error_handling wPack wConnWrite 5 6 (NewMessage "BAD") [] [1]).1,
    (write_loop_error_handling wPack wConnWrite 5 6 (NewMessage "BAD") [] [1]).2.1 rfl,
    (write_loop_error_handling wPack wConnWrite 5 6 (NewMessage "OK") [] [1]).2.2
      rfl rfl⟩

/-! Embedding of the accept loop (runListener). -/

/-- One result of netListener.Accept: an error or an accepted connection. -/
inductive AcceptResult (C : Type) where
  | err
  | conn (c : C)

/-- Observable outcome of runListener.  returned is the value handed back to
the caller of runListener; loggedBindError records a logged net.Listen
failure; spawned lists the connections passed to handleNewConnection in
order; loggedAcceptErrors counts logged Accept failures. -/
structure ListenerOutcome (C E : Type) where
  returned : Option E
  loggedBindError : Option E
  spawned : List C
  loggedAcceptErrors : Nat

/-- Embeds one iteration of the accept loop in runListener: an Accept error is
logged and the loop continues; an accepted connection is handed to
handleNewConnection and the loop continues. -/
def acceptStep {C E : Type} (o : ListenerOutcome C E) (a : AcceptResult C) :
    ListenerOutcome C E :=
  match a with
  | AcceptResult.err => { o with loggedAcceptErrors := o.loggedAcceptErrors + 1 }
  | AcceptResult.conn c => { o with spawned := o.spawned ++ [c] }

/-- Embeds runListener from listener.go.  bind is the result of net.Listen
(some e for a failure); accepts is the finite schedule of Accept results
consumed (the Go loop is endless, the model observes a finite prefix).  The
Go function has no return value, so the caller receives nothing in either
case: returned is none on every path.  On a bind failure the function logs
the error and returns at once, processing no accepts. -/
def runListener {C E : Type} (bind : Option E)
    (accepts : List (AcceptResult C)) : ListenerOutcome C E :=
  match bind with
  | some e =>
    { returned := none, loggedBindError := some e, spawned := []
      loggedAcceptErrors := 0 }
  | none =>
    accepts.foldl acceptStep
      { returned := none, loggedBindError := none, spawned := []
        loggedAcceptErrors := 0 }

/-- C8 counterexample: a bind failure is fatal for the listener and logged,
but it is not reported to the caller — runListener has no return value in the
code, so at the concrete bind error EADDRINUSE the caller receives none
rather than the error. -/
theorem bind_failure_not_reported_cex :
    (runListener (C := Nat) (some "EADDRINUSE") []).loggedBindError
      = some "EADDRINUSE" ∧
    (runListener (C := Nat) (some "EADDRINUSE") []).returned = none :=
  ⟨rfl, rfl⟩

lemma acceptLoop_spec {C E : Type} (accepts : List (AcceptResult C))
    (o : ListenerOutcome C E) :
    (accepts.foldl acceptStep o).spawned
      = o.spawned ++ accepts.filterMap (fun a => match a with
          | AcceptResult.err => none
          | AcceptResult.conn c => some c) ∧
    (accepts.foldl acceptStep o).loggedAcceptErrors
      = o.loggedAcceptErrors + accepts.countP (fun a => match a with
          | AcceptResult.err => true
          | AcceptResult.conn _ => false) ∧
    (accepts.foldl acceptStep o).returned = o.returned ∧
    (accepts.foldl acceptStep o).loggedBindError = o.loggedBindError := by
  induction accepts generalizing o with
  | nil => simp
  | cons a as ih =>
    obtain ⟨i1, i2, i3, i4⟩ := ih (acceptStep o a)
    refine ⟨?_, ?_, ?_, ?_⟩
    · rw [List.foldl_cons, i1]
      cases a <;> simp [acceptStep, List.filterMap_cons]
    · rw [List.foldl_cons, i2, List.countP_cons]
      cases a with
      | err =>
        simp [acceptStep]
        omega
      | conn c => simp [acceptStep]
    · rw [List.foldl_cons, i3]
      cases a <;> simp [acceptStep]
    · rw [List.foldl_cons, i4]
      cases a <;> simp [acceptStep]

/-- C8 amended: accept failures are non fatal — every accept error is logged
and the loop continues, so every accepted connection in the schedule is still
spawned — while a bind failure is fatal for the listener: it logs the error
and returns at once, spawning nothing; but nothing is reported to the caller,
runListener having no return value. -/
theorem listener_error_handling {C E : Type} (e : E)
    (accepts : List (AcceptResult C)) :
    (runListener (E := E) (some e) accepts).spawned = [] ∧
    (runListener (E := E) (some e) accepts).loggedBindError = some e ∧
    (runListener (E := E) (some e) accepts).returned = none ∧
    (runListener (C := C) (E := E) none accepts).spawned
      = accepts.filterMap (fun a => match a with
          | AcceptResult.err => none
          | AcceptResult.conn c => some c) ∧
    (runListener (C := C) (E := E) none accepts).loggedAcceptErrors
      = accepts.countP (fun a => match a with
          | AcceptResult.err => true
          | AcceptResult.conn _ => false) ∧
    (runListener (C := C) (E := E) none accepts).returned = none := by
  obtain ⟨h1, h2, h3, _⟩ := acceptLoop_spec (E := E) accepts
    { returned := none, loggedBindError := none, spawned := []
      loggedAcceptErrors := 0 }
  exact ⟨rfl, rfl, rfl, by simpa using h1, by simpa using h2, by simpa using h3⟩

/-! Ordering of registration and requests for one session (C9). -/

/-- Events emitted towards the dispatcher by the goroutines of session c: its
add and rm events and the requests its read loop forwards (the src field is
the ghost provenance of a request).  Connector responses are emitted by no
session. -/
def emittedBy (c : Nat) : Event → Bool
  | Event.res _ => false
  | Event.req src _ => src == c
  | Event.add c' => c' == c
  | Event.rm c' => c' == c

/-- Embeds the statement order of handleNewConnection: the client is sent on
addCh first, and only then is go client.Read started and client.Write run, so
the stream of events one session emits towards the dispatcher begins with its
add event; rest is whatever its two loops emit afterwards. -/
def handleNewConnectionEvents (c : Nat) (rest : List Event) : List Event :=
  Event.add c :: rest

lemma run_frozen_of_panicked (es : List Event) (s : DState)
    (h : s.panicked = true) : run s es = s := by
  induction es generalizing s with
  | nil => rfl
  | cons e es ih =>
    rw [run_cons]
    have hstep : step s e = s := by simp [step, h]
    rw [hstep, ih s h]

lemma step_table_mem (s : DState) (e : Event) (c : Nat)
    (h : c ∈ s.table) (hne : e ≠ Event.rm c) : c ∈ (step s e).table := by
  by_cases hp : s.panicked
  · simpa [step, hp] using h
  · cases e with
    | res m =>
      simp only [step, hp, Bool.false_eq_true, if_false]
      unfold processResponse
      rw [foldl_sendTo_table]
      exact h
    | req src m =>
      simpa [step, hp, processRequest] using h
    | add c' =>
      simp only [step, hp, Bool.false_eq_true, if_false]
      unfold addStep
      rw [sendTo_table, sendTo_table]
      split_ifs with hmem
      · exact h
      · exact List.mem_append_left _ h
    | rm c' =>
      have hcc : c ≠ c' := fun hcc => hne (by rw [hcc])
      simp only [step, hp, Bool.false_eq_true, if_false]
      unfold rmStep
      split_ifs with hcl
      · exact h
      · exact List.mem_filter.mpr ⟨h, by simpa using hcc⟩

lemma run_table_mem (es : List Event) (s : DState) (c : Nat)
    (h : c ∈ s.table ∨ Event.add c ∈ es) (hrm : Event.rm c ∉ es)
    (hp : (run s es).panicked = false) : c ∈ (run s es).table := by
  induction es generalizing s with
  | nil =>
    rcases h with h | h
    · exact h
    · cases h
  | cons e es ih =>
    simp only [List.mem_cons, not_or] at hrm
    rw [run_cons] at hp ⊢
    by_cases hsp : s.panicked
    · have hse : step s e = s := by simp [step, hsp]
      rw [hse, run_frozen_of_panicked es s hsp, hsp] at hp
      simp at hp
    · by_cases he : e = Event.add c
      · subst he
        refine ih (step s (Event.add c)) (Or.inl ?_) hrm.2 hp
        have hps : s.panicked = false := by simpa using hsp
        simp only [step, hps, Bool.false_eq_true, if_false]
        unfold addStep
        rw [sendTo_table, sendTo_table]
        split_ifs with hmem
        · exact hmem
        · exact List.mem_append_right _ (List.mem_singleton.mpr rfl)
      · rcases h with h | h
        · exact ih (step s e) (Or.inl (step_table_mem s e c h
            (fun hh => hrm.1 hh.symm))) hrm.2 hp
        · rcases List.mem_cons.mp h with h2 | h2
          · exact absurd h2.symm he
          · exact ih (step s e) (Or.inr h2) hrm.2 hp

/-- C9: in any dispatcher schedule es whose subsequence of events emitted by
session c is exactly what handleNewConnection produces (the add event first),
every request from session c is preceded in the schedule by the add event of
c: the dispatcher processes the registration of a session before any inbound
message of that session.  Moreover, at the point such a request is processed
the session is registered, provided it has not been deregistered before that
point and the dispatcher has not panicked. -/
theorem add_processed_before_any_request (es rest p q : List Event) (c : Nat)
    (m : Message)
    (hsession : es.filter (emittedBy c) = handleNewConnectionEvents c rest)
    (hsplit : es = p ++ Event.req c m :: q) :
    Event.add c ∈ p ∧
    (Event.rm c ∉ p → (run init p).panicked = false →
      c ∈ (run init p).table) := by
  have hmem : Event.add c ∈ p := by
    subst hsplit
    rw [List.filter_append] at hsession
    have hreq : emittedBy c (Event.req c m) = true := by simp [emittedBy]
    rw [List.filter_cons_of_pos] at hsession
    · cases hfp : p.filter (emittedBy c) with
      | nil =>
        rw [hfp, List.nil_append] at hsession
        unfold handleNewConnectionEvents at hsession
        cases hsession
      | cons x xs =>
        rw [hfp, List.cons_append] at hsession
        unfold handleNewConnectionEvents at hsession
        have hx : x = Event.add c := (List.cons.injEq _ _ _ _ ▸ hsession).1
        have : x ∈ p.filter (emittedBy c) := by
          rw [hfp]; exact List.mem_cons_self x xs
        rw [hx] at this
        exact List.mem_of_mem_filter this
    · exact hreq
  refine ⟨hmem, fun hrm hp => ?_⟩
  exact run_table_mem p init c (Or.inr hmem) hrm hp

/-- Witness for C9 on a concrete two event schedule. -/
theorem add_processed_before_any_request_witness :
    ([Event.add 0, Event.req 0 (NewMessage "REQ")].filter (emittedBy 0)
      = handleNewConnectionEvents 0 [Event.req 0 (NewMessage "REQ")]) ∧
    ([Event.add 0, Event.req 0 (NewMessage "REQ")]
      = [Event.add 0] ++ Event.req 0 (NewMessage "REQ") :: []) ∧
    Event.add 0 ∈ [Event.add 0] ∧
    (Event.rm 0 ∉ [Event.add 0] → (run init [Event.add 0]).panicked = false →
      0 ∈ (run init [Event.add 0]).table) :=
  ⟨by decide, rfl,
    (add_processed_before_any_request [Event.add 0,
        Event.req 0 (NewMessage "REQ")] [Event.req 0 (NewMessage "REQ")]
        [Event.add 0] [] 0 (NewMessage "REQ") (by decide) rfl).1,
    (add_processed_before_any_request [Event.add 0,
        Event.req 0 (NewMessage "REQ")] [Event.req 0 (NewMessage "REQ")]
        [Event.add 0] [] 0 (NewMessage "REQ") (by decide) rfl).2⟩

/-! Blocking semantics of the broadcast fan out (C4).  Each resCh is created
unbuffered (make(chan baps3.Message) in handleNewConnection), so the send
ch <- res inside processResponse completes only by rendezvous with the receive
in that session write loop, and the dispatcher waits meanwhile. -/

/-- Status of the Client.Write goroutine of one session under blocking
semantics: ready means blocked on the receive from resCh; writing m means
inside c.conn.Write for the received message m, a call that returns only when
the socket completes it — never, for a stalled socket. -/
inductive WStatus where
  | ready
  | writing (m : Message)
deriving DecidableEq

/-- Pointwise update of a writer status assignment. -/
def wupd (f : Nat → WStatus) (c : Nat) (v : WStatus) : Nat → WStatus :=
  fun x => if x = c then v else f x

/-- Pointwise update of a written messages assignment. -/
def oupd (f : Nat → List Message) (c : Nat) (v : List Message) :
    Nat → List Message :=
  fun x => if x = c then v else f x

/-- Configuration of the dispatcher and the write loops under blocking channel
semantics, over a fixed client table (no add or rm in flight).  pending some
(m, ds) means the dispatcher is inside processResponse, still having to send m
to the sessions ds, in the iteration order of the clients map; pending none
means it is back at the select.  writers gives the status of each session
write loop; written lists the messages each write loop has fully written to
its socket. -/
structure CConfig where
  dtable : List Nat
  pending : Option (Message × List Nat)
  writers : Nat → WStatus
  written : Nat → List Message

/-- Scheduler labels: recvRes m fires the cResCh case of the select, starting
processResponse over the current table (enabled only when the dispatcher is at
the select); handoff completes the rendezvous of the pending head send with a
ready writer; sockDone c completes the conn.Write call of session c.  A label
whose step is not enabled leaves the configuration unchanged: the goroutine in
question stays blocked. -/
inductive CLabel where
  | recvRes (m : Message)
  | handoff
  | sockDone (c : Nat)
deriving DecidableEq

/-- One scheduler step of the blocking model. -/
def cstep (k : CConfig) (l : CLabel) : CConfig :=
  match l with
  | CLabel.recvRes m =>
    match k.pending with
    | none => { k with pending := some (m, k.dtable) }
    | some _ => k
  | CLabel.handoff =>
    match k.pending with
    | some (m, c :: ds) =>
      match k.writers c with
      | WStatus.ready =>
        { k with writers := wupd k.writers c (WStatus.writing m)
                 pending := if ds.isEmpty then none else some (m, ds) }
      | WStatus.writing _ => k
    | some (_, []) => { k with pending := none }
    | none => k
  | CLabel.sockDone c =>
    match k.writers c with
    | WStatus.writing m =>
      { k with writers := wupd k.writers c WStatus.ready
               written := oupd k.written c (k.written c ++ [m]) }
    | WStatus.ready => k

/-- Runs the blocking model over a schedule of labels. -/
def crun (k : CConfig) (ls : List CLabel) : CConfig :=
  ls.foldl cstep k

/-- Message broadcast and fully delivered before the stall. -/
def earlierMsg : Message := (NewMessage "RES").AddArg "old"

/-- Message whose broadcast is blocked by the stalled session. -/
def blockedMsg : Message := (NewMessage "RES").AddArg "new"

/-- Two sessions registered, dispatcher at the select, all writers ready. -/
def kinit : CConfig :=
  { dtable := [0, 1]
    pending := none
    writers := fun _ => WStatus.ready
    written := fun _ => [] }

/-- Schedule reaching the stalled configuration: earlierMsg is broadcast and
handed to both writers, the socket write of session 1 completes while that of
session 0 stalls, and the broadcast of blockedMsg then begins with session 0
first in the map iteration order. -/
def stallSchedule : List CLabel :=
  [CLabel.recvRes earlierMsg, CLabel.handoff, CLabel.handoff,
   CLabel.sockDone 1, CLabel.recvRes blockedMsg]

lemma kstall_pending :
    (crun kinit stallSchedule).pending = some (blockedMsg, [0, 1]) := rfl

lemma kstall_writers0 :
    (crun kinit stallSchedule).writers 0 = WStatus.writing earlierMsg := rfl

lemma kstall_writers_ne (c : Nat) (hc : c ≠ 0) :
    (crun kinit stallSchedule).writers c = WStatus.ready := by
  show wupd (wupd (wupd (fun _ => WStatus.ready) 0 (WStatus.writing earlierMsg))
    1 (WStatus.writing earlierMsg)) 1 WStatus.ready c = WStatus.ready
  by_cases h1 : c = 1
  · simp [wupd, h1]
  · simp [wupd, h1, hc]

/-- A configuration whose dispatcher is blocked mid broadcast on a stalled
writer, every other writer being idle, is left unchanged by every scheduler
step other than the completion of the stalled socket write. -/
lemma cstep_frozen (k : CConfig) (c0 : Nat) (m m0 : Message) (ds : List Nat)
    (hpend : k.pending = some (m, c0 :: ds))
    (hw0 : k.writers c0 = WStatus.writing m0)
    (hwr : ∀ c, c ≠ c0 → k.writers c = WStatus.ready)
    (l : CLabel) (hl : l ≠ CLabel.sockDone c0) :
    cstep k l = k := by
  cases l with
  | recvRes m2 => simp [cstep, hpend]
  | handoff => simp [cstep, hpend, hw0]
  | sockDone c =>
    have hc : c ≠ c0 := fun h => hl (by rw [h])
    simp [cstep, hwr c hc]

lemma crun_frozen (k : CConfig) (c0 : Nat) (m m0 : Message) (ds : List Nat)
    (hpend : k.pending = some (m, c0 :: ds))
    (hw0 : k.writers c0 = WStatus.writing m0)
    (hwr : ∀ c, c ≠ c0 → k.writers c = WStatus.ready)
    (ls : List CLabel) (hls : ∀ l ∈ ls, l ≠ CLabel.sockDone c0) :
    crun k ls = k := by
  induction ls with
  | nil => rfl
  | cons l ls ih =>
    have h1 : cstep k l = k :=
      cstep_frozen k c0 m m0 ds hpend hw0 hwr l (hls l (List.mem_cons_self l ls))
    show crun (cstep k l) ls = k
    rw [h1]
    exact ih (fun l2 hl2 => hls l2 (List.mem_cons_of_mem _ hl2))

/-- C4 counterexample: a misbehaving connection does block broadcast delivery
to the others.  In the reachable configuration crun kinit stallSchedule the
write loop of session 0 is stalled inside conn.Write and the dispatcher has
begun broadcasting blockedMsg with session 0 first; after five further steps
in which the scheduler fires every goroutine except the stalled socket write,
the dispatcher is still blocked on the unbuffered send to session 0 and
session 1 has not received the broadcast. -/
theorem stalled_connection_blocks_broadcast_cex :
    (crun kinit (stallSchedule ++ [CLabel.handoff,
        CLabel.recvRes (NewMessage "X"), CLabel.sockDone 1, CLabel.handoff,
        CLabel.sockDone 2])).pending = some (blockedMsg, [0, 1]) ∧
    (crun kinit (stallSchedule ++ [CLabel.handoff,
        CLabel.recvRes (NewMessage "X"), CLabel.sockDone 1, CLabel.handoff,
        CLabel.sockDone 2])).written 1 = [earlierMsg] :=
  ⟨rfl, rfl⟩

/-- C4 amended: a session whose write loop stalls inside a socket write blocks
the dispatcher at the unbuffered channel send of the broadcast loop: from the
reachable stalled configuration, any schedule that never completes the stalled
socket write of session 0 leaves the configuration unchanged, so session 1
never receives the pending broadcast while session 0 stalls — delivery to the
other sessions is blocked, though not corrupted, by one misbehaving
connection. -/
theorem stalled_connection_blocks_broadcast (ls : List CLabel)
    (hls : ∀ l ∈ ls, l ≠ CLabel.sockDone 0) :
    crun (crun kinit stallSchedule) ls = crun kinit stallSchedule ∧
    (crun (crun kinit stallSchedule) ls).written 1 = [earlierMsg] := by
  have hfrozen : crun (crun kinit stallSchedule) ls = crun kinit stallSchedule :=
    crun_frozen _ 0 blockedMsg earlierMsg [1] kstall_pending kstall_writers0
      kstall_writers_ne ls hls
  exact ⟨hfrozen, by rw [hfrozen]; rfl⟩

/-- Witness for the amended C4 theorem on a concrete one label schedule. -/
theorem stalled_connection_blocks_broadcast_witness :
    (∀ l ∈ [CLabel.handoff], l ≠ CLabel.sockDone 0) ∧
    crun (crun kinit stallSchedule) [CLabel.handoff] = crun kinit stallSchedule ∧
    (crun (crun kinit stallSchedule) [CLabel.handoff]).written 1 = [earlierMsg] :=
  ⟨by decide, (stalled_connection_blocks_broadcast [CLabel.handoff] (by decide)).1,
    (stalled_connection_blocks_broadcast [CLabel.handoff] (by decide)).2⟩

end Listd
